import Mathlib

/-!
Verification of the resumable chunked-download engine of this repository
(`services/downloader.py`, `handlers/leech.py`).

The engine `fetch_to_temp` is embedded as an executable state machine.
One iteration of its `while retry_count < max_retries` loop performs exactly
one network operation; the behaviour of the network on that operation is an
element of `NetEvent` (either an exception raised by the HTTP client, or a
response with a status code, an optional Content-Length header, the list of
body chunks delivered by `aiter_bytes`, and an optional mid-stream
exception).  A whole run is driven by a list of such events, consumed one
per loop iteration.  All byte strings are `List Nat`.
-/

/-- The progress callback `Callable[[int, Optional[int]], None]`: it receives
`(downloaded, expected_total)`; its `Bool` result models whether it raises an
exception (the engine catches and discards either way, lines 180-184 and
196-200 of `downloader.py`). -/
def Cb : Type := Nat → Nat → Bool

/-- `FileMeta` from `services/downloader.py` (lines 15-19). -/
structure FileMeta where
  name : String
  size : Option Nat
  url : String

/-- Python truthiness of an `Optional[int]`: `None` and `0` are falsy. -/
def truthy : Option Nat → Bool
  | none => false
  | some n => n != 0

/-- `calculate_optimal_chunk_size` (lines 25-43 of `downloader.py`). -/
def calculate_optimal_chunk_size (file_size : Option Nat) (attempt : Nat) : Nat :=
  let base_size : Nat :=
    if truthy file_size = false then 262144
    else if file_size.getD 0 < 5 * 1024 * 1024 then 131072
    else if file_size.getD 0 < 50 * 1024 * 1024 then 524288
    else 1048576
  let base_size := if attempt > 3 then base_size / 2 else base_size
  let base_size := if attempt > 6 then max (base_size / 2) 32768 else base_size
  base_size

/-- The exception classes distinguished by the three `except` clauses
(lines 224, 235, 246).  All three handlers mutate the retry state
identically (they differ only in the sleep duration, which is not
modelled). -/
inductive ExcKind
  | timeout
  | httpErr
  | other

/-- Behaviour of the network on one loop iteration. -/
inductive NetEvent
  | exc (k : ExcKind)
  | resp (status : Nat) (contentLength : Option Nat)
      (chunks : List (List Nat)) (streamExc : Option ExcKind)

/-- The engine's mutable loop state: `downloaded`, `retry_count`,
`consecutive_failures`, the contents of the temp file on disk, and
`meta.size` (which line 148 may update mid-transfer). -/
structure St where
  downloaded : Nat
  retryCount : Nat
  consecutiveFailures : Nat
  file : List Nat
  metaSize : Option Nat
deriving DecidableEq

/-- The state change common to every `except` clause:
`retry_count += 1; consecutive_failures += 1` (lines 225-226, 236-237,
247-248). -/
def bumpFail (st : St) : St :=
  { st with retryCount := st.retryCount + 1,
            consecutiveFailures := st.consecutiveFailures + 1 }

/-- `expected_total` as computed at lines 144-154: `downloaded + content_length`
when the header is present, else `meta.size or 0`. -/
def expectedTotalOf (st : St) (cl : Option Nat) : Nat :=
  match cl with
  | some l => st.downloaded + l
  | none => st.metaSize.getD 0

/-- Result of streaming the response body (lines 164-200): final file
contents, `downloaded`, `bytes_in_chunk`, the successive values of
`downloaded` after each written chunk, and the number of progress-callback
invocations. -/
structure WcOut where
  file : List Nat
  downloaded : Nat
  bic : Nat
  trace : List Nat
  calls : Nat
deriving DecidableEq

/-- The `async for chunk in response.aiter_bytes(...)` loop (lines 168-193):
empty chunks are skipped, each other chunk is appended to the file and
counted, and the progress callback fires whenever
`(downloaded - downloaded % 2^20) % 2^20 == 0` (line 179). -/
def writeChunks (cb : Option Cb) (et : Nat) :
    List (List Nat) → List Nat → Nat → Nat → WcOut
  | [], f, d, b => ⟨f, d, b, [], 0⟩
  | c :: cs, f, d, b =>
    if c.length = 0 then writeChunks cb et cs f d b
    else
      let d' := d + c.length
      let callsHere : Nat :=
        match cb with
        | some p =>
          if (d' - d' % (1024 * 1024)) % (1024 * 1024) = 0 then
            let _ := p d' et
            1
          else 0
        | none => 0
      let r := writeChunks cb et cs (f ++ c) d' (b + c.length)
      ⟨r.file, r.downloaded, r.bic, d' :: r.trace, callsHere + r.calls⟩

/-- Whether one loop iteration breaks out of the retry loop (success) or
continues with a new state. -/
inductive StepRes
  | brk (st : St)
  | cont (st : St)
deriving DecidableEq

/-- One iteration's result together with its progress-callback count and the
`downloaded` trace it produced. -/
structure StepOut where
  res : StepRes
  calls : Nat
  trace : List Nat
deriving DecidableEq

/-- One iteration of the retry loop body (lines 81-255), driven by one
network event.  A 4xx status raises `DownloadError`, which is caught by the
`except (httpx.HTTPError, DownloadError)` clause; any other non-200/206
status increments `consecutive_failures` and either re-loops (below the
threshold of 3) or raises (at the threshold).  A 200/206 resets
`consecutive_failures`, reads the Content-Length, opens the file in `ab` or
`wb` mode, streams the chunks, and then either breaks (download considered
complete), or raises an incomplete-download error. -/
def doStep (cb : Option Cb) (st : St) (e : NetEvent) : StepOut :=
  match e with
  | .exc _ => ⟨.cont (bumpFail st), 0, []⟩
  | .resp status cl chunks streamExc =>
    if status = 400 ∨ status = 404 ∨ status = 403 then
      ⟨.cont (bumpFail st), 0, []⟩
    else if ¬ (status = 200 ∨ status = 206) then
      if st.consecutiveFailures + 1 ≥ 3 then
        ⟨.cont { st with retryCount := st.retryCount + 1,
                         consecutiveFailures := st.consecutiveFailures + 2 }, 0, []⟩
      else
        ⟨.cont { st with consecutiveFailures := st.consecutiveFailures + 1 }, 0, []⟩
    else
      let st0 : St := { st with consecutiveFailures := 0 }
      let expectedTotal := expectedTotalOf st0 cl
      let metaSize' : Option Nat :=
        match cl with
        | some l =>
          if st0.downloaded = 0 ∧ truthy st0.metaSize = false then some l
          else st0.metaSize
        | none => st0.metaSize
      let file0 := if st0.downloaded > 0 then st0.file else []
      let w := writeChunks cb expectedTotal chunks file0 st0.downloaded 0
      let st' : St := { st0 with downloaded := w.downloaded, file := w.file,
                                 metaSize := metaSize' }
      match streamExc with
      | some _ => ⟨.cont (bumpFail st'), w.calls, w.trace⟩
      | none =>
        let finalCall : Nat :=
          match cb with
          | some p => let _ := p w.downloaded expectedTotal; 1
          | none => 0
        if expectedTotal ≠ 0 then
          if w.downloaded ≥ expectedTotal then
            ⟨.brk st', w.calls + finalCall, w.trace⟩
          else ⟨.cont (bumpFail st'), w.calls + finalCall, w.trace⟩
        else
          if w.bic > 0 then ⟨.brk st', w.calls + finalCall, w.trace⟩
          else ⟨.cont (bumpFail st'), w.calls + finalCall, w.trace⟩

/-- The distinct terminal `DownloadError`s raised after the loop. -/
inductive FailKind
  | exhaustedUnstable
  | exhaustedGeneric
  | fileEmpty
deriving DecidableEq

/-- Result of a run: success with the final file contents, a raised
`DownloadError` together with what remains on disk, or the driving event
list was exhausted while the loop still wanted to iterate. -/
inductive Outcome
  | success (file : List Nat)
  | failure (k : FailKind) (disk : Option (List Nat))
  | outOfEnv (st : St)
deriving DecidableEq

/-- Observable counters of a run: number of network operations performed,
the chunk size chosen at each iteration (line 83), total progress-callback
invocations, and the successive values of `downloaded`. -/
structure Stats where
  requests : Nat
  chunkSizes : List Nat
  progressCalls : Nat
  trace : List Nat
deriving DecidableEq

/-- The post-loop exhaustion path (lines 258-270): the temp file is removed
unconditionally and a distinct `DownloadError` is raised, depending on
`consecutive_failures >= 5`. -/
def finishExhausted (st : St) : Outcome :=
  .failure (if st.consecutiveFailures ≥ 5 then .exhaustedUnstable
            else .exhaustedGeneric) none

/-- The post-loop verification path after a break (lines 272-294): a
zero-byte file is removed and `DownloadError` raised, otherwise success. -/
def finishSuccess (st : St) : Outcome :=
  if st.file.length = 0 then .failure .fileEmpty none
  else .success st.file

/-- The retry loop `while retry_count < max_retries` (lines 80-294),
consuming one network event per iteration. -/
def runLoop (cb : Option Cb) (mr : Nat) : St → List NetEvent → Outcome × Stats
  | st, env =>
    if mr ≤ st.retryCount then (finishExhausted st, ⟨0, [], 0, []⟩)
    else
      match env with
      | [] => (.outOfEnv st, ⟨0, [], 0, []⟩)
      | e :: rest =>
        let c := calculate_optimal_chunk_size st.metaSize (st.retryCount + 1)
        let s := doStep cb st e
        match s.res with
        | .brk st' => (finishSuccess st', ⟨1, [c], s.calls, s.trace⟩)
        | .cont st' =>
          let r := runLoop cb mr st' rest
          (r.1, ⟨r.2.requests + 1, c :: r.2.chunkSizes,
                 s.calls + r.2.progressCalls, s.trace ++ r.2.trace⟩)

/-- The state at entry of the loop: empty temp file just created by
`tempfile.mkstemp`, zero counters, caller-supplied size hint. -/
def initState (meta : FileMeta) : St :=
  ⟨0, 0, 0, [], meta.size⟩

/-- `fetch_to_temp` (lines 56-294) as a function of the network events.
`mr` is the `max_retries` parameter (default 8 at the call sites). -/
def fetch_to_temp (meta : FileMeta) (cb : Option Cb) (mr : Nat)
    (env : List NetEvent) : Outcome × Stats :=
  runLoop cb mr (initState meta) env

/-- Termination measure of the retry loop: each iteration either breaks or
strictly decreases this quantity (`retry_count` can only grow, and between
two growths `consecutive_failures` grows, capped at 3 by the raise at line
137). -/
def retryMeasure (mr : Nat) (st : St) : Nat :=
  4 * (mr - st.retryCount) + (3 - st.consecutiveFailures)

/-- `check_file_size_limit` from `handlers/leech.py` (lines 296-300). -/
def check_file_size_limit (file_size : Nat) (max_size : Nat) : Bool × String :=
  if file_size > max_size then (false, "File size exceeds limit")
  else (true, "")

/-- The size-gating fragment of `leech_handler_v2` (lines 383-400 of
`handlers/leech.py`): the limit check runs only when the resolved size is
truthy; result `true` means the handler proceeds to the download. -/
def leech_size_gate (total : Option Nat) : Bool :=
  if truthy total then (check_file_size_limit (total.getD 0) (80 * 1024 * 1024)).1
  else true

/-- The engine state carried by a step result, whether the iteration broke
out of the loop or continues. -/
def resState : StepRes → St
  | .brk s => s
  | .cont s => s

/-! ## Lemmas about the chunk-writing loop -/

theorem writeChunks_downloaded (cb : Option Cb) (et : Nat) :
    ∀ (chs : List (List Nat)) (f : List Nat) (d b : Nat),
    (writeChunks cb et chs f d b).downloaded = d + (chs.map List.length).sum := by
  intro chs
  induction chs with
  | nil => intro f d b; simp [writeChunks]
  | cons c cs ih =>
    intro f d b
    by_cases hc : c.length = 0
    · simp [writeChunks, hc, ih]
    · simp only [writeChunks, if_neg hc, List.map_cons, List.sum_cons]
      rw [ih]
      omega

theorem writeChunks_file_append (cb : Option Cb) (et : Nat) :
    ∀ (chs : List (List Nat)) (f : List Nat) (d b : Nat),
    ∃ t, (writeChunks cb et chs f d b).file = f ++ t := by
  intro chs
  induction chs with
  | nil => intro f d b; exact ⟨[], by simp [writeChunks]⟩
  | cons c cs ih =>
    intro f d b
    by_cases hc : c.length = 0
    · simpa [writeChunks, hc] using ih f d b
    · simp only [writeChunks, if_neg hc]
      obtain ⟨t, ht⟩ := ih (f ++ c) (d + c.length) (b + c.length)
      exact ⟨c ++ t, by simp [ht]⟩

theorem writeChunks_len (cb : Option Cb) (et : Nat) :
    ∀ (chs : List (List Nat)) (f : List Nat) (d b : Nat), f.length = d →
    (writeChunks cb et chs f d b).file.length = (writeChunks cb et chs f d b).downloaded := by
  intro chs
  induction chs with
  | nil => intro f d b h; simpa [writeChunks] using h
  | cons c cs ih =>
    intro f d b h
    by_cases hc : c.length = 0
    · simp only [writeChunks, if_pos hc]
      exact ih f d b h
    · simp only [writeChunks, if_neg hc]
      exact ih (f ++ c) (d + c.length) (b + c.length) (by simp [h])

theorem writeChunks_chain (cb : Option Cb) (et : Nat) :
    ∀ (chs : List (List Nat)) (f : List Nat) (d b : Nat),
    List.Chain' (· ≤ ·) (d :: (writeChunks cb et chs f d b).trace) ∧
    List.getLast? (d :: (writeChunks cb et chs f d b).trace)
      = some (writeChunks cb et chs f d b).downloaded := by
  intro chs
  induction chs with
  | nil => intro f d b; simp [writeChunks]
  | cons c cs ih =>
    intro f d b
    by_cases hc : c.length = 0
    · simp only [writeChunks, if_pos hc]
      exact ih f d b
    · simp only [writeChunks, if_neg hc]
      obtain ⟨h1, h2⟩ := ih (f ++ c) (d + c.length) (b + c.length)
      refine ⟨List.Chain'.cons (by omega) h1, ?_⟩
      rw [List.getLast?_cons_cons]
      exact h2

theorem writeChunks_cb_indep (cb : Option Cb) (et : Nat) :
    ∀ (chs : List (List Nat)) (f : List Nat) (d b : Nat),
    (writeChunks cb et chs f d b).file = (writeChunks none et chs f d b).file ∧
    (writeChunks cb et chs f d b).downloaded = (writeChunks none et chs f d b).downloaded ∧
    (writeChunks cb et chs f d b).bic = (writeChunks none et chs f d b).bic ∧
    (writeChunks cb et chs f d b).trace = (writeChunks none et chs f d b).trace := by
  intro chs
  induction chs with
  | nil => intro f d b; simp [writeChunks]
  | cons c cs ih =>
    intro f d b
    by_cases hc : c.length = 0
    · simp only [writeChunks, if_pos hc]
      exact ih f d b
    · simp only [writeChunks, if_neg hc]
      obtain ⟨h1, h2, h3, h4⟩ := ih (f ++ c) (d + c.length) (b + c.length)
      exact ⟨h1, h2, h3, by rw [h4]⟩

/-! ## Lemmas about one loop iteration -/

theorem doStep_cont_cases (cb : Option Cb) (st : St) (e : NetEvent) (st' : St)
    (h : (doStep cb st e).res = .cont st') :
    st'.retryCount = st.retryCount + 1 ∨
      (st'.retryCount = st.retryCount ∧
       st'.consecutiveFailures = st.consecutiveFailures + 1 ∧
       st.consecutiveFailures + 1 < 3) := by
  cases e with
  | exc k =>
    simp only [doStep, StepRes.cont.injEq] at h
    subst h
    left
    simp [bumpFail]
  | resp status cl chunks se =>
    by_cases h4 : status = 400 ∨ status = 404 ∨ status = 403
    · simp only [doStep, if_pos h4, StepRes.cont.injEq] at h
      subst h
      left
      simp [bumpFail]
    · by_cases h2 : status = 200 ∨ status = 206
      · cases se with
        | some k =>
          simp only [doStep, if_neg h4, if_neg (not_not_intro h2),
            StepRes.cont.injEq] at h
          subst h
          left
          simp [bumpFail]
        | none =>
          simp only [doStep, if_neg h4, if_neg (not_not_intro h2)] at h
          repeat' split at h
          all_goals
            first
            | (simp only [StepRes.cont.injEq] at h
               subst h
               left
               simp [bumpFail])
            | simp at h
      · by_cases h3 : st.consecutiveFailures + 1 ≥ 3
        · simp only [doStep, if_neg h4, if_pos h2, if_pos h3,
            StepRes.cont.injEq] at h
          subst h
          left
          simp
        · simp only [doStep, if_neg h4, if_pos h2, if_neg h3,
            StepRes.cont.injEq] at h
          subst h
          right
          exact ⟨rfl, rfl, by omega⟩

theorem doStep_rc_mono (cb : Option Cb) (st : St) (e : NetEvent) :
    st.retryCount ≤ (resState (doStep cb st e).res).retryCount := by
  cases e <;> simp only [doStep] <;> repeat' split
  all_goals simp [resState, bumpFail]

theorem doStep_metaSize_stable (cb : Option Cb) (st : St) (e : NetEvent)
    (ht : truthy st.metaSize = true) :
    (resState (doStep cb st e).res).metaSize = st.metaSize := by
  cases e <;> simp only [doStep] <;> repeat' split
  all_goals simp_all [resState, bumpFail]

theorem doStep_inv (cb : Option Cb) (st : St) (e : NetEvent)
    (hinv : st.file.length = st.downloaded) :
    (resState (doStep cb st e).res).file.length
        = (resState (doStep cb st e).res).downloaded ∧
      ∃ t, (resState (doStep cb st e).res).file = st.file ++ t := by
  cases e with
  | exc k =>
    exact ⟨by simp [doStep, resState, bumpFail, hinv],
           ⟨[], by simp [doStep, resState, bumpFail]⟩⟩
  | resp status cl chunks se =>
    simp only [doStep]
    split
    · exact ⟨by simp [resState, bumpFail, hinv], ⟨[], by simp [resState, bumpFail]⟩⟩
    · split
      · split
        · exact ⟨by simp [resState, hinv], ⟨[], by simp [resState]⟩⟩
        · exact ⟨by simp [resState, hinv], ⟨[], by simp [resState]⟩⟩
      · by_cases hd : st.downloaded > 0
        · have hw1 := writeChunks_len cb
            (expectedTotalOf { st with consecutiveFailures := 0 } cl) chunks
            st.file st.downloaded 0 hinv
          have hw2 := writeChunks_file_append cb
            (expectedTotalOf { st with consecutiveFailures := 0 } cl) chunks
            st.file st.downloaded 0
          obtain ⟨t, ht⟩ := hw2
          rw [if_pos hd]
          repeat' split
          all_goals
            exact ⟨by simpa [resState, bumpFail] using hw1,
                   ⟨t, by simpa [resState, bumpFail] using ht⟩⟩
        · have hd0 : st.downloaded = 0 := by omega
          have hf0 : st.file = [] := by
            have := hinv
            rw [hd0] at this
            exact List.length_eq_zero.mp this
          have hw1 := writeChunks_len cb
            (expectedTotalOf { st with consecutiveFailures := 0 } cl) chunks
            [] st.downloaded 0 (by simp [hd0])
          have hw2 := writeChunks_file_append cb
            (expectedTotalOf { st with consecutiveFailures := 0 } cl) chunks
            [] st.downloaded 0
          obtain ⟨t, ht⟩ := hw2
          rw [if_neg hd]
          repeat' split
          all_goals
            exact ⟨by simpa [resState, bumpFail] using hw1,
                   ⟨t, by simpa [resState, bumpFail, hf0] using ht⟩⟩

theorem doStep_trace_chain (cb : Option Cb) (st : St) (e : NetEvent) :
    List.Chain' (· ≤ ·) (st.downloaded :: (doStep cb st e).trace) ∧
      List.getLast? (st.downloaded :: (doStep cb st e).trace)
        = some (resState (doStep cb st e).res).downloaded := by
  cases e with
  | exc k => simp [doStep, resState, bumpFail]
  | resp status cl chunks se =>
    simp only [doStep]
    split
    · simp [resState, bumpFail]
    · split
      · split
        · simp [resState]
        · simp [resState]
      · generalize (expectedTotalOf { st with consecutiveFailures := 0 } cl) = et
        generalize (if st.downloaded > 0 then st.file else []) = f0
        have hwc := writeChunks_chain cb et chunks f0 st.downloaded 0
        repeat' split
        all_goals
          refine ⟨by simpa using hwc.1, by simpa [resState, bumpFail] using hwc.2⟩

theorem doStep_cb_indep (p : Cb) (st : St) (e : NetEvent) :
    (doStep (some p) st e).res = (doStep none st e).res ∧
      (doStep (some p) st e).trace = (doStep none st e).trace := by
  cases e with
  | exc k => exact ⟨rfl, rfl⟩
  | resp status cl chunks se =>
    simp only [doStep]
    split
    · exact ⟨rfl, rfl⟩
    · split
      · split
        · exact ⟨rfl, rfl⟩
        · exact ⟨rfl, rfl⟩
      · generalize (expectedTotalOf { st with consecutiveFailures := 0 } cl) = et
        generalize (if st.downloaded > 0 then st.file else []) = f0
        obtain ⟨e1, e2, e3, e4⟩ := writeChunks_cb_indep (some p) et chunks f0
          st.downloaded 0
        simp only [e1, e2, e3, e4]
        constructor
        · repeat' split
          all_goals rfl
        · repeat' split
          all_goals rfl

/-! ## Lemmas about the retry loop -/

theorem runLoop_requests_le (cb : Option Cb) (mr : Nat) :
    ∀ (env : List NetEvent) (st : St),
    (runLoop cb mr st env).2.requests ≤ retryMeasure mr st := by
  intro env
  induction env with
  | nil =>
    intro st
    rw [runLoop]
    split
    · simp [retryMeasure]
    · simp [retryMeasure]
  | cons e rest ih =>
    intro st
    rw [runLoop]
    split
    · simp [retryMeasure]
    · rename_i hguard
      simp only []
      cases hres : (doStep cb st e).res with
      | brk st' =>
        simp only [hres]
        simp only [retryMeasure]
        omega
      | cont st' =>
        simp only [hres]
        have hc := doStep_cont_cases cb st e st' hres
        have hih := ih st'
        simp only [retryMeasure] at hih ⊢
        rcases hc with h1 | ⟨h1, h2, h3⟩ <;> simp <;> omega

theorem runLoop_failure_disk (cb : Option Cb) (mr : Nat) :
    ∀ (env : List NetEvent) (st : St) (k : FailKind) (d : Option (List Nat)),
    (runLoop cb mr st env).1 = .failure k d → d = none := by
  intro env
  induction env with
  | nil =>
    intro st k d h
    rw [runLoop] at h
    split at h
    · simp only [finishExhausted, Outcome.failure.injEq] at h
      exact h.2.symm
    · simp at h
  | cons e rest ih =>
    intro st k d h
    rw [runLoop] at h
    split at h
    · simp only [finishExhausted, Outcome.failure.injEq] at h
      exact h.2.symm
    · simp only [] at h
      cases hres : (doStep cb st e).res with
      | brk st' =>
        simp only [hres] at h
        simp only [finishSuccess] at h
        split at h
        · simp only [Outcome.failure.injEq] at h
          exact h.2.symm
        · simp at h
      | cont st' =>
        simp only [hres] at h
        exact ih st' k d h

theorem runLoop_success_ne_nil (cb : Option Cb) (mr : Nat) :
    ∀ (env : List NetEvent) (st : St) (f : List Nat),
    (runLoop cb mr st env).1 = .success f → f ≠ [] := by
  intro env
  induction env with
  | nil =>
    intro st f h
    rw [runLoop] at h
    split at h
    · simp [finishExhausted] at h
    · simp at h
  | cons e rest ih =>
    intro st f h
    rw [runLoop] at h
    split at h
    · simp [finishExhausted] at h
    · simp only [] at h
      cases hres : (doStep cb st e).res with
      | brk st' =>
        simp only [hres] at h
        simp only [finishSuccess] at h
        split at h
        · simp at h
        · rename_i hlen
          simp only [Outcome.success.injEq] at h
          subst h
          exact fun hn => hlen (by simp [hn])
      | cont st' =>
        simp only [hres] at h
        exact ih st' f h

theorem runLoop_success_prefix (cb : Option Cb) (mr : Nat) :
    ∀ (env : List NetEvent) (st : St) (f : List Nat),
    st.file.length = st.downloaded →
    (runLoop cb mr st env).1 = .success f → ∃ t, f = st.file ++ t := by
  intro env
  induction env with
  | nil =>
    intro st f _ h
    rw [runLoop] at h
    split at h
    · simp [finishExhausted] at h
    · simp at h
  | cons e rest ih =>
    intro st f hinv h
    rw [runLoop] at h
    split at h
    · simp [finishExhausted] at h
    · simp only [] at h
      have hstep := doStep_inv cb st e hinv
      cases hres : (doStep cb st e).res with
      | brk st' =>
        simp only [hres] at h
        simp only [finishSuccess] at h
        split at h
        · simp at h
        · simp only [Outcome.success.injEq] at h
          subst h
          rw [hres] at hstep
          exact hstep.2
      | cont st' =>
        simp only [hres] at h
        rw [hres] at hstep
        simp only [resState] at hstep
        obtain ⟨t1, ht1⟩ := ih st' f hstep.1 h
        obtain ⟨t0, ht0⟩ := hstep.2
        exact ⟨t0 ++ t1, by rw [ht1, ht0, List.append_assoc]⟩

theorem runLoop_trace_chain (cb : Option Cb) (mr : Nat) :
    ∀ (env : List NetEvent) (st : St),
    List.Chain' (· ≤ ·) (st.downloaded :: (runLoop cb mr st env).2.trace) := by
  intro env
  induction env with
  | nil =>
    intro st
    rw [runLoop]
    split <;> simp
  | cons e rest ih =>
    intro st
    rw [runLoop]
    split
    · simp
    · simp only []
      have hstep := doStep_trace_chain cb st e
      cases hres : (doStep cb st e).res with
      | brk st' =>
        simp only [hres]
        simpa using hstep.1
      | cont st' =>
        simp only [hres]
        have h2 := hstep.2
        rw [hres] at h2
        simp only [resState] at h2
        have hih := ih st'
        have hl2 : List.Chain' (· ≤ ·) (runLoop cb mr st' rest).2.trace := hih.tail
        have hhead : ∀ y ∈ (runLoop cb mr st' rest).2.trace.head?,
            st'.downloaded ≤ y := (List.chain'_cons'.mp hih).1
        have hall : List.Chain' (· ≤ ·)
            ((st.downloaded :: (doStep cb st e).trace)
              ++ (runLoop cb mr st' rest).2.trace) := by
          rw [List.chain'_append]
          refine ⟨hstep.1, hl2, ?_⟩
          intro x hx y hy
          rw [h2] at hx
          simp only [Option.mem_def, Option.some.injEq] at hx
          subst hx
          exact hhead y hy
        simpa using hall

theorem runLoop_cb_indep (p : Cb) (mr : Nat) :
    ∀ (env : List NetEvent) (st : St),
    (runLoop (some p) mr st env).1 = (runLoop none mr st env).1 := by
  intro env
  induction env with
  | nil =>
    intro st
    rw [runLoop, runLoop]
  | cons e rest ih =>
    intro st
    by_cases hg : mr ≤ st.retryCount
    · rw [runLoop, if_pos hg, runLoop, if_pos hg]
    · have hd := doStep_cb_indep p st e
      conv_lhs => rw [runLoop]
      conv_rhs => rw [runLoop]
      rw [if_neg hg, if_neg hg]
      simp only []
      cases hres : (doStep (some p) st e).res with
      | brk st' =>
        have hres' : (doStep none st e).res = .brk st' := by rw [← hd.1, hres]
        simp only [hres, hres']
      | cont st' =>
        have hres' : (doStep none st e).res = .cont st' := by rw [← hd.1, hres]
        simp only [hres, hres']
        exact ih st'

/-! ## Chunk-size lemmas -/

theorem calculate_base_ge (s : Option Nat) :
    131072 ≤ (if truthy s = false then (262144 : Nat)
      else if s.getD 0 < 5 * 1024 * 1024 then 131072
      else if s.getD 0 < 50 * 1024 * 1024 then 524288 else 1048576) := by
  repeat' split
  all_goals norm_num

theorem calculate_floor (s : Option Nat) (a : Nat) :
    32768 ≤ calculate_optimal_chunk_size s a := by
  have hB := calculate_base_ge s
  simp only [calculate_optimal_chunk_size]
  generalize hg : (if truthy s = false then (262144 : Nat)
      else if s.getD 0 < 5 * 1024 * 1024 then 131072
      else if s.getD 0 < 50 * 1024 * 1024 then 524288 else 1048576) = B at hB ⊢
  repeat' split
  all_goals first
    | omega
    | exact le_max_right _ _
    | (exfalso; omega)

theorem calculate_antitone (s : Option Nat) (a b : Nat) (hab : a ≤ b) :
    calculate_optimal_chunk_size s b ≤ calculate_optimal_chunk_size s a := by
  have hB := calculate_base_ge s
  simp only [calculate_optimal_chunk_size]
  generalize hg : (if truthy s = false then (262144 : Nat)
      else if s.getD 0 < 5 * 1024 * 1024 then 131072
      else if s.getD 0 < 50 * 1024 * 1024 then 524288 else 1048576) = B at hB ⊢
  repeat' split
  all_goals first
    | omega
    | exact le_rfl
    | (apply max_le <;> omega)
    | (exfalso; omega)

theorem runLoop_chunkSizes_floor (cb : Option Cb) (mr : Nat) :
    ∀ (env : List NetEvent) (st : St) (c : Nat),
    c ∈ (runLoop cb mr st env).2.chunkSizes → 32768 ≤ c := by
  intro env
  induction env with
  | nil =>
    intro st c hc
    rw [runLoop] at hc
    split at hc <;> simp at hc
  | cons e rest ih =>
    intro st c hc
    rw [runLoop] at hc
    split at hc
    · simp at hc
    · simp only [] at hc
      cases hres : (doStep cb st e).res with
      | brk st' =>
        simp only [hres] at hc
        simp only [List.mem_singleton] at hc
        subst hc
        exact calculate_floor _ _
      | cont st' =>
        simp only [hres] at hc
        simp only [List.mem_cons] at hc
        rcases hc with hc | hc
        · subst hc
          exact calculate_floor _ _
        · exact ih st' c hc

theorem runLoop_chunkSizes_chain (cb : Option Cb) (mr : Nat) (s : Nat)
    (hs : s ≠ 0) :
    ∀ (env : List NetEvent) (st : St), st.metaSize = some s →
    ∀ prev : Nat,
    calculate_optimal_chunk_size st.metaSize (st.retryCount + 1) ≤ prev →
    List.Chain' (· ≥ ·) (prev :: (runLoop cb mr st env).2.chunkSizes) := by
  intro env
  induction env with
  | nil =>
    intro st _ prev _
    rw [runLoop]
    split <;> simp
  | cons e rest ih =>
    intro st hms prev hprev
    have htr : truthy st.metaSize = true := by simp [hms, truthy, hs]
    rw [runLoop]
    split
    · simp
    · simp only []
      have hstable := doStep_metaSize_stable cb st e htr
      have hmono := doStep_rc_mono cb st e
      cases hres : (doStep cb st e).res with
      | brk st' =>
        simp only [hres]
        exact List.chain'_cons.mpr ⟨hprev, by simp⟩
      | cont st' =>
        simp only [hres]
        rw [hres] at hstable hmono
        simp only [resState] at hstable hmono
        refine List.chain'_cons.mpr ⟨hprev, ?_⟩
        refine ih st' (by rw [hstable, hms]) _ ?_
        rw [hstable]
        exact calculate_antitone st.metaSize _ _ (by omega)

theorem runLoop_exhausted (cb : Option Cb) (mr : Nat) (st : St)
    (env : List NetEvent) (h : mr ≤ st.retryCount) :
    runLoop cb mr st env = (finishExhausted st, ⟨0, [], 0, []⟩) := by
  rw [runLoop.eq_def]
  exact if_pos h

theorem runLoop_decided (cb : Option Cb) (mr : Nat) :
    ∀ (env : List NetEvent) (st : St),
    retryMeasure mr st < env.length →
    ∀ st2 : St, (runLoop cb mr st env).1 ≠ .outOfEnv st2 := by
  intro env
  induction env with
  | nil =>
    intro st hlen
    simp [retryMeasure] at hlen
  | cons e rest ih =>
    intro st hlen st2 h
    rw [runLoop] at h
    split at h
    · simp [finishExhausted] at h
    · rename_i hguard
      simp only [] at h
      cases hres : (doStep cb st e).res with
      | brk st' =>
        simp only [hres] at h
        simp only [finishSuccess] at h
        split at h <;> simp at h
      | cont st' =>
        simp only [hres] at h
        have hc := doStep_cont_cases cb st e st' hres
        refine ih st' ?_ st2 h
        simp only [retryMeasure] at hlen ⊢
        simp only [List.length_cons] at hlen
        rcases hc with h1 | ⟨h1, h2, h3⟩ <;> omega

/-! ## Claim theorems -/

/-- Claim C1, counterexample: a transfer with known expected size 10 writes 4
bytes, fails, resumes at offset 4 with a byte-range request, and the server
answers with a full-content 200 re-sending all 10 bytes.  The engine does not
detect this: it appends the full response to the existing partial file and
reports success with a 14-byte file instead of the expected 10 bytes. -/
theorem c1_counterexample :
    (fetch_to_temp ⟨"f", some 10, "u"⟩ none 8
        [.resp 200 (some 10) [[1, 2, 3, 4]] (some .timeout),
         .resp 200 (some 10) [[1, 2, 3, 4, 5, 6, 7, 8, 9, 10]] none]).1
      = .success [1, 2, 3, 4, 1, 2, 3, 4, 5, 6, 7, 8, 9, 10] ∧
    ¬ ([1, 2, 3, 4, 1, 2, 3, 4, 5, 6, 7, 8, 9, 10] : List Nat).length = 10 :=
  ⟨by decide, by decide⟩

/-- Claim C1, amended: the engine performs no full-content detection on
resume (a 200 is appended exactly like a 206), so the only surviving
guarantee is prefix preservation: whenever the loop state has a file of
exactly `downloaded` bytes (as every reachable state does), any successful
final file extends that partial file — its first N bytes equal the
pre-resume partial, though its total length can exceed the expected size. -/
theorem c1_amended_theorem (cb : Option Cb) (mr : Nat) (st : St)
    (env : List NetEvent) (f : List Nat)
    (hinv : st.file.length = st.downloaded)
    (hsucc : (runLoop cb mr st env).1 = .success f) :
    ∃ t, f = st.file ++ t :=
  runLoop_success_prefix cb mr env st f hinv hsucc

/-- Claim C1, witness for the amended theorem at a concrete resumed
transfer. -/
theorem c1_amended_witness : ∃ t, ([7, 9] : List Nat) = [7] ++ t :=
  c1_amended_theorem none 8 ⟨1, 0, 0, [7], some 2⟩
    [.resp 206 (some 1) [[9]] none] [7, 9] (by decide) (by decide)

/-- Claim C2, counterexample: a 403 response on the first attempt does not
abort the transfer — the engine performs a second network operation and even
succeeds, refuting "aborts immediately and never retries". -/
theorem c2_counterexample :
    (fetch_to_temp ⟨"f", some 5, "u"⟩ none 8
        [.resp 403 none [] none,
         .resp 200 (some 5) [[1, 2, 3, 4, 5]] none]).1
      = .success [1, 2, 3, 4, 5] ∧
    (fetch_to_temp ⟨"f", some 5, "u"⟩ none 8
        [.resp 403 none [] none,
         .resp 200 (some 5) [[1, 2, 3, 4, 5]] none]).2.requests = 2 :=
  ⟨by decide, by decide⟩

/-- Claim C2, amended: a 400/404/403 response raises `DownloadError`, which
is caught by the generic `except (httpx.HTTPError, DownloadError)` handler
and retried like any transient failure: while the retry budget is not
exhausted, the loop simply continues from the bumped state (retry_count + 1)
after one more network request. -/
theorem c2_amended_theorem (cb : Option Cb) (mr : Nat) (st : St)
    (status : Nat) (cl : Option Nat) (chs : List (List Nat))
    (se : Option ExcKind) (rest : List NetEvent)
    (hg : st.retryCount < mr)
    (hst : status = 400 ∨ status = 404 ∨ status = 403) :
    (runLoop cb mr st (.resp status cl chs se :: rest)).1
        = (runLoop cb mr (bumpFail st) rest).1 ∧
      (runLoop cb mr st (.resp status cl chs se :: rest)).2.requests
        = (runLoop cb mr (bumpFail st) rest).2.requests + 1 := by
  have hres : (doStep cb st (.resp status cl chs se)).res
      = .cont (bumpFail st) := by
    simp only [doStep, if_pos hst]
  rw [runLoop]
  rw [if_neg (by omega : ¬ mr ≤ st.retryCount)]
  simp only [hres]
  exact ⟨trivial, trivial⟩

/-- Claim C2, witness for the amended theorem at a concrete 403. -/
theorem c2_amended_witness :
    (runLoop none 8 ⟨0, 0, 0, [], some 5⟩ [.resp 403 none [] none]).1
        = (runLoop none 8 (bumpFail ⟨0, 0, 0, [], some 5⟩) []).1 ∧
      (runLoop none 8 ⟨0, 0, 0, [], some 5⟩ [.resp 403 none [] none]).2.requests
        = (runLoop none 8 (bumpFail ⟨0, 0, 0, [], some 5⟩) []).2.requests + 1 :=
  c2_amended_theorem none 8 ⟨0, 0, 0, [], some 5⟩ 403 none [] none []
    (by decide) (by decide)

/-- Claim C3, counterexample: with `max_retries = 2`, four consecutive 500
responses drive the loop through 4 network operations — more than the
configured ceiling of 2 — because an unexpected-status response below the
consecutive-failure threshold re-loops without incrementing `retry_count`.
The first two failed operations leave `retry_count` at 0. -/
theorem c3_counterexample :
    (fetch_to_temp ⟨"f", none, "u"⟩ none 2
        [.resp 500 none [] none, .resp 500 none [] none,
         .resp 500 none [] none, .resp 500 none [] none]).2.requests = 4 ∧
    ¬ (4 : Nat) ≤ 2 ∧
    (fetch_to_temp ⟨"f", none, "u"⟩ none 2
        [.resp 500 none [] none, .resp 500 none [] none,
         .resp 500 none [] none, .resp 500 none [] none]).1
      = .failure .exhaustedUnstable none :=
  ⟨by decide, by decide, by decide⟩

/-- Claim C3, amended: `retry_count` increases by exactly 1 per caught
exception (the unexpected-status `continue` path does not increment it), the
total number of network operations in a run is nevertheless bounded by
`4 * max_retries + 3`, and once `retry_count` reaches the ceiling the loop
stops at once with a distinct exhaustion `DownloadError` instead of retrying
forever (given enough network events, the run is always decided). -/
theorem c3_amended_theorem (cb : Option Cb) (mr : Nat) (meta : FileMeta)
    (env : List NetEvent) :
    (fetch_to_temp meta cb mr env).2.requests ≤ 4 * mr + 3 ∧
      (∀ (st : St) (k : ExcKind),
        (doStep cb st (.exc k)).res = .cont (bumpFail st)) ∧
      (∀ st : St, mr ≤ st.retryCount →
        (runLoop cb mr st env).1
          = .failure (if st.consecutiveFailures ≥ 5 then .exhaustedUnstable
              else .exhaustedGeneric) none) ∧
      (4 * mr + 3 < env.length →
        ∀ st2 : St, (fetch_to_temp meta cb mr env).1 ≠ .outOfEnv st2) := by
  refine ⟨?_, ?_, ?_, ?_⟩
  · have h := runLoop_requests_le cb mr env (initState meta)
    have h2 : retryMeasure mr (initState meta) = 4 * mr + 3 := by
      simp [retryMeasure, initState]
    rw [fetch_to_temp]
    omega
  · intro st k
    rfl
  · intro st h
    rw [runLoop_exhausted cb mr st env h]
    rfl
  · intro hlen st2
    refine runLoop_decided cb mr env (initState meta) ?_ st2
    have h2 : retryMeasure mr (initState meta) = 4 * mr + 3 := by
      simp [retryMeasure, initState]
    omega

/-- Claim C3, witness for the amended theorem at concrete inputs. -/
theorem c3_amended_witness :
    (fetch_to_temp ⟨"f", none, "u"⟩ none 2 [.exc .timeout]).2.requests
        ≤ 4 * 2 + 3 ∧
      (doStep none ⟨0, 0, 0, [], none⟩ (.exc .timeout)).res
        = .cont (bumpFail ⟨0, 0, 0, [], none⟩) ∧
      (runLoop none 2 ⟨0, 2, 0, [], none⟩ [.exc .timeout]).1
        = .failure .exhaustedGeneric none ∧
      (fetch_to_temp ⟨"f", none, "u"⟩ none 2
          (List.replicate 12 (.exc .timeout))).1
        ≠ .outOfEnv ⟨0, 0, 0, [], none⟩ := by
  have h1 := c3_amended_theorem none 2 ⟨"f", none, "u"⟩ [.exc .timeout]
  have h12 := c3_amended_theorem none 2 ⟨"f", none, "u"⟩
    (List.replicate 12 (.exc .timeout))
  refine ⟨h1.1, h1.2.1 ⟨0, 0, 0, [], none⟩ .timeout, ?_, ?_⟩
  · have h3 := h1.2.2.1 ⟨0, 2, 0, [], none⟩ (by decide)
    simpa using h3
  · exact h12.2.2.2 (by simp) ⟨0, 0, 0, [], none⟩

/-- Claim C4, counterexample: with expected total 10 the stream delivers 15
bytes; the success check `downloaded >= expected_total` accepts it and the
engine reports success with 15 bytes written, refuting "success only if the
bytes written equal the expected total". -/
theorem c4_counterexample :
    (fetch_to_temp ⟨"f", some 10, "u"⟩ none 8
        [.resp 200 (some 10)
           [[1, 2, 3, 4, 5, 6, 7, 8, 9, 10, 11, 12, 13, 14, 15]] none]).1
      = .success [1, 2, 3, 4, 5, 6, 7, 8, 9, 10, 11, 12, 13, 14, 15] ∧
    ¬ ([1, 2, 3, 4, 5, 6, 7, 8, 9, 10, 11, 12, 13, 14, 15] : List Nat).length
      = 10 :=
  ⟨by decide, by decide⟩

/-- Claim C4, amended: when the expected total is non-zero, a normally
completing stream breaks out of the loop (success) iff the bytes written
reach **at least** the expected total; a short read instead raises the
incomplete-download error, which increments `retry_count` and continues the
retry loop — it is never reported as success. -/
theorem c4_amended_theorem (cb : Option Cb) (st : St) (status : Nat)
    (cl : Option Nat) (chs : List (List Nat))
    (h0 : status = 200 ∨ status = 206)
    (h1 : expectedTotalOf st cl ≠ 0) :
    (expectedTotalOf st cl ≤ st.downloaded + (chs.map List.length).sum →
      ∃ stB, (doStep cb st (.resp status cl chs none)).res = .brk stB ∧
        stB.downloaded = st.downloaded + (chs.map List.length).sum) ∧
    (st.downloaded + (chs.map List.length).sum < expectedTotalOf st cl →
      ∃ stC, (doStep cb st (.resp status cl chs none)).res = .cont stC ∧
        stC.retryCount = st.retryCount + 1 ∧
        stC.downloaded = st.downloaded + (chs.map List.length).sum) := by
  have hn4 : ¬ (status = 400 ∨ status = 404 ∨ status = 403) := by
    rcases h0 with h | h <;> subst h <;> decide
  have het : expectedTotalOf { st with consecutiveFailures := 0 } cl
      = expectedTotalOf st cl := by
    cases cl <;> rfl
  simp only [doStep, if_neg hn4, if_neg (not_not_intro h0), het]
  generalize (if st.downloaded > 0 then st.file else []) = f0
  have hwd := writeChunks_downloaded cb (expectedTotalOf st cl) chs f0
    st.downloaded 0
  constructor
  · intro hle
    rw [if_pos h1, if_pos (by omega : expectedTotalOf st cl
      ≤ (writeChunks cb (expectedTotalOf st cl) chs f0 st.downloaded 0).downloaded)]
    exact ⟨_, rfl, hwd⟩
  · intro hlt
    rw [if_pos h1, if_neg (by omega : ¬ expectedTotalOf st cl
      ≤ (writeChunks cb (expectedTotalOf st cl) chs f0 st.downloaded 0).downloaded)]
    refine ⟨_, rfl, by simp [bumpFail], by simpa [bumpFail] using hwd⟩

/-- Claim C4, witness for the amended theorem: exact delivery breaks with 10
bytes; a 3-byte short read continues with `retry_count` bumped to 1. -/
theorem c4_amended_witness :
    (∃ stB, (doStep none ⟨0, 0, 0, [], some 10⟩
        (.resp 200 (some 10) [[1, 2, 3, 4, 5, 6, 7, 8, 9, 10]] none)).res
          = .brk stB ∧
      stB.downloaded
        = 0 + ([[1, 2, 3, 4, 5, 6, 7, 8, 9, 10]].map List.length).sum) ∧
    (∃ stC, (doStep none ⟨0, 0, 0, [], some 10⟩
        (.resp 200 (some 10) [[1, 2, 3]] none)).res = .cont stC ∧
      stC.retryCount = (⟨0, 0, 0, [], some 10⟩ : St).retryCount + 1 ∧
      stC.downloaded = 0 + ([[1, 2, 3]].map List.length).sum) :=
  ⟨(c4_amended_theorem none ⟨0, 0, 0, [], some 10⟩ 200 (some 10)
      [[1, 2, 3, 4, 5, 6, 7, 8, 9, 10]] (Or.inl rfl) (by decide)).1 (by decide),
   (c4_amended_theorem none ⟨0, 0, 0, [], some 10⟩ 200 (some 10)
      [[1, 2, 3]] (Or.inl rfl) (by decide)).2 (by decide)⟩

/-- Claim C5, counterexample: with `max_retries = 1`, an attempt writes 4
bytes (the trace records downloaded = 4) and then times out; the exhaustion
path at lines 258-264 removes the non-empty partial file unconditionally, so
nothing is left on disk — refuting "a non-empty partial file is left intact
on disk". -/
theorem c5_counterexample :
    (fetch_to_temp ⟨"f", some 10, "u"⟩ none 1
        [.resp 200 (some 10) [[1, 2, 3, 4]] (some .timeout)]).1
      = .failure .exhaustedGeneric none ∧
    (fetch_to_temp ⟨"f", some 10, "u"⟩ none 1
        [.resp 200 (some 10) [[1, 2, 3, 4]] (some .timeout)]).2.trace = [4] ∧
    (4 : Nat) ≠ 0 :=
  ⟨by decide, by decide, by decide⟩

/-- Claim C5, amended: every failing termination removes the output file —
retry exhaustion deletes whatever is on disk (partial or empty) and the
zero-byte verification path also deletes — so a failure never leaves a file
at the destination, while a success always returns a non-empty file. -/
theorem c5_amended_theorem (cb : Option Cb) (mr : Nat) (meta : FileMeta)
    (env : List NetEvent) :
    (∀ (k : FailKind) (d : Option (List Nat)),
      (fetch_to_temp meta cb mr env).1 = .failure k d → d = none) ∧
    (∀ f : List Nat,
      (fetch_to_temp meta cb mr env).1 = .success f → f ≠ []) :=
  ⟨fun k d h => runLoop_failure_disk cb mr env (initState meta) k d h,
   fun f h => runLoop_success_ne_nil cb mr env (initState meta) f h⟩

/-- Claim C5, witness for the amended theorem at the concrete exhaustion run
and a concrete successful run. -/
theorem c5_amended_witness :
    (none : Option (List Nat)) = none ∧ ([1, 2, 3, 4, 5] : List Nat) ≠ [] :=
  ⟨(c5_amended_theorem none 1 ⟨"f", some 10, "u"⟩
      [.resp 200 (some 10) [[1, 2, 3, 4]] (some .timeout)]).1
      .exhaustedGeneric none (by decide),
   (c5_amended_theorem none 8 ⟨"f", some 5, "u"⟩
      [.resp 200 (some 5) [[1, 2, 3, 4, 5]] none]).2
      [1, 2, 3, 4, 5] (by decide)⟩

/-- Claim C6, counterexample: a transfer that starts with unknown size uses a
256 KiB chunk on attempt 1, learns a 50 MiB size from the Content-Length
(line 148), fails mid-stream, and then uses a 1 MiB chunk on attempt 2 — the
chunk size grows mid-transfer, refuting monotone non-increase. -/
theorem c6_counterexample :
    (fetch_to_temp ⟨"f", none, "u"⟩ none 8
        [.resp 200 (some 52428800) [[1]] (some .timeout),
         .resp 200 (some 10) [[1, 2, 3, 4, 5, 6, 7, 8, 9, 10]] none]).2.chunkSizes
      = [262144, 1048576] ∧
    ¬ (1048576 : Nat) ≤ 262144 :=
  ⟨by decide, by decide⟩

/-- Claim C6, amended: the 32768-byte floor holds unconditionally for every
chunk size ever used, and the monotone non-increase holds whenever the
transfer starts with a known non-zero size (then `meta.size` never changes,
so the chunk size is non-increasing in the attempt number); it can grow only
when an initially unknown size becomes known mid-transfer. -/
theorem c6_amended_theorem (cb : Option Cb) (mr : Nat) (meta : FileMeta)
    (env : List NetEvent) :
    (∀ c ∈ (fetch_to_temp meta cb mr env).2.chunkSizes, 32768 ≤ c) ∧
    (∀ s : Nat, meta.size = some s → s ≠ 0 →
      List.Chain' (· ≥ ·) (fetch_to_temp meta cb mr env).2.chunkSizes) := by
  constructor
  · intro c hc
    exact runLoop_chunkSizes_floor cb mr env (initState meta) c hc
  · intro s hms hs
    have h := runLoop_chunkSizes_chain cb mr s hs env (initState meta)
      (by simp [initState, hms])
      (calculate_optimal_chunk_size (initState meta).metaSize
        ((initState meta).retryCount + 1)) le_rfl
    exact h.tail

/-- Claim C6, witness for the amended theorem at concrete runs. -/
theorem c6_amended_witness :
    (32768 : Nat) ≤ 262144 ∧
      List.Chain' (· ≥ ·)
        (fetch_to_temp ⟨"f", some 10, "u"⟩ none 8
          [.exc .timeout,
           .resp 200 (some 10) [[1, 2, 3, 4, 5, 6, 7, 8, 9, 10]] none]).2.chunkSizes :=
  ⟨(c6_amended_theorem none 8 ⟨"f", none, "u"⟩
      [.resp 200 (some 15) [[1, 1, 1, 1, 1]] none]).1 262144 (by decide),
   (c6_amended_theorem none 8 ⟨"f", some 10, "u"⟩
      [.exc .timeout,
       .resp 200 (some 10) [[1, 2, 3, 4, 5, 6, 7, 8, 9, 10]] none]).2
      10 rfl (by decide)⟩

/-- Claim C7, code bug: the throttling condition at line 179,
`(downloaded - downloaded % 2^20) % 2^20 == 0`, is identically true, so the
progress callback fires on every non-empty chunk plus once at stream end —
contradicting the code's own comment ("every 1MB instead of 3 seconds") and
the claimed time-interval throttle.  On a 3-chunk stream the callback fires
4 times, which is not strictly fewer than the number of chunks. -/
theorem c7_code_behavior :
    (∀ d : Nat, (d - d % (1024 * 1024)) % (1024 * 1024) = 0) ∧
    (fetch_to_temp ⟨"f", some 15, "u"⟩ (some (fun _ _ => true)) 8
        [.resp 200 (some 15)
           [[1, 1, 1, 1, 1], [2, 2, 2, 2, 2], [3, 3, 3, 3, 3]] none]).2.progressCalls
      = 4 ∧
    (fetch_to_temp ⟨"f", some 15, "u"⟩ (some (fun _ _ => true)) 8
        [.resp 200 (some 15)
           [[1, 1, 1, 1, 1], [2, 2, 2, 2, 2], [3, 3, 3, 3, 3]] none]).2.trace.length
      = 3 ∧
    ¬ (4 : Nat) < 3 :=
  ⟨fun d => by omega, by decide, by decide, by decide⟩

/-- Claim C8: the running byte count is monotonically non-decreasing over
the whole lifetime of a transfer — starting from 0, the successive values of
`downloaded` recorded after each written chunk form a non-decreasing
sequence, across all chunks and all retry attempts. -/
theorem c8_bytes_monotone (meta : FileMeta) (cb : Option Cb) (mr : Nat)
    (env : List NetEvent) :
    List.Chain' (· ≤ ·) (0 :: (fetch_to_temp meta cb mr env).2.trace) :=
  runLoop_trace_chain cb mr env (initState meta)

/-- Claim C9: supplying a progress callback — including one that raises an
exception on every invocation — changes neither the outcome nor the final
file of a transfer: callback exceptions are caught and discarded (lines
180-184 and 196-200), and the callback result influences no engine state. -/
theorem c9_callback_no_effect (meta : FileMeta) (mr : Nat)
    (env : List NetEvent) (p : Cb) :
    (fetch_to_temp meta (some p) mr env).1 = (fetch_to_temp meta none mr env).1 :=
  runLoop_cb_indep p mr env (initState meta)

/-- Claim C10: the 80 MB pre-transfer limit of `check_file_size_limit` is
enforced only when the resolver reports a truthy size: a `None` (or zero)
resolved size skips the check entirely and the handler proceeds to the
download, while a known non-zero size is gated by `size <= 80 * 1024 * 1024`. -/
theorem c10_size_gate :
    leech_size_gate none = true ∧
      ∀ t : Nat, leech_size_gate (some t)
        = (decide (t = 0) || decide (t ≤ 80 * 1024 * 1024)) := by
  constructor
  · rfl
  · intro t
    by_cases h : t = 0
    · subst h
      rfl
    · simp only [leech_size_gate, truthy, check_file_size_limit]
      have ht : (t != 0) = true := by simpa using h
      rw [if_pos ht]
      simp only [Option.getD_some]
      by_cases h2 : t ≤ 80 * 1024 * 1024
      · rw [if_neg (by omega : ¬ t > 80 * 1024 * 1024)]
        simp [h, h2]
      · rw [if_pos (by omega : t > 80 * 1024 * 1024)]
        simp [h, h2]
